import Mathlib

/-!
Verification of the node generation and spatial deduplication engine of the
road-shields pipeline (`src/Nodify.py`).

The embedding below translates the two operations of `LineTools`:

* `add_nodes` (interval sampling of a line into points): the loop
  `d = 0; while d < geom.length: write(interpolate(d)); d += interval`
  is modelled as a fuel-indexed function on rational arc lengths that
  returns the list of sampled arc-length distances, or `none` when the
  fuel is exhausted before the loop exits (i.e. the real loop has not
  terminated within that many iterations).

* `thin_nodes` (radius-based, group-aware thinning): records are modelled
  by the structure `PointRecord`; the flags `INCLUDE`/`PROCESSED` are the
  shapefile string flags `'Y'`/`'N'` read as booleans (`true` iff `'Y'`).
  The `group` field holds the value of the group attribute, `none` when
  the attribute is absent from the record's mapping (a Python lookup of an
  absent key raises `KeyError`, modelled by `Except.error`).  Geometry is
  an optional rational coordinate pair; the exact containment test
  `point.within(center.buffer(radius, 100))` is modelled as membership in
  the closed disk, `dist^2 <= radius^2` (the 400-gon buffer used by the
  code is contained in that disk).  A candidate with a null geometry makes
  `shape(...).within(...)` raise, modelled by `Except.error`.
  `records_within` re-opens the input file and calls
  `f_input.filter(obj.bounds)` but discards the returned iterator, so the
  subsequent iteration yields every record id of the file; it is therefore
  modelled as returning the id of every record.  Record ids in a shapefile
  are the strings "0", "1", ... in creation order, modelled as naturals;
  `wfIds` states that each record's id equals its position, which holds
  for every collection read by fiona.
-/

set_option maxHeartbeats 1600000

/-- Distances emitted by the sampling loop of `add_nodes`
(src/Nodify.py lines 78-85), starting from distance `d`:
`while d < geom.length: f_output.write(interpolate(d)); d += interval`.
The result is `some` of the list of distances written if the loop exits
within `fuel` iterations, and `none` otherwise. -/
def interpolateLoop (length interval : ℚ) (d : ℚ) : ℕ → Option (List ℚ)
  | 0 => none
  | Nat.succ fuel =>
    if d < length then (interpolateLoop length interval (d + interval) fuel).map (fun l => d :: l)
    else some []

/-- Arc-length distances of the points `add_nodes` writes for one line of
length `length` with the given `interval` (src/Nodify.py lines 73-88): the
loop starts at `d = 0`. -/
def add_nodes (length interval : ℚ) (fuel : ℕ) : Option (List ℚ) :=
  interpolateLoop length interval 0 fuel

/-- A point record of the thinning phase (one fiona record of the node file):
stable `id` (position in the file for data read by fiona), optional point
geometry, the value of the group attribute (`none` when the attribute is
absent from the record's mapping), the two state flags `INCLUDE` and
`PROCESSED` (`true` iff the shapefile string flag is `'Y'`), and the
remaining attribute content, opaque to the algorithm. -/
structure PointRecord where
  id : ℕ
  geom : Option (ℚ × ℚ)
  group : Option String
  INCLUDE : Bool
  PROCESSED : Bool
  payload : String
  deriving DecidableEq, Inhabited

/-- Exclusion of a record (src/Nodify.py lines 140-141 and 129-130):
`INCLUDE = 'N'; PROCESSED = 'Y'`. -/
def excludeRec (rec : PointRecord) : PointRecord :=
  { rec with INCLUDE := false, PROCESSED := true }

/-- The exact containment test of line 138,
`shape(search_rec['geometry']).within(geom_buffer)` against the buffer of
radius `radius` around `p`: membership in the closed disk, stated on squared
distances. -/
def within (q p : ℚ × ℚ) (radius : ℚ) : Bool :=
  decide ((q.1 - p.1) * (q.1 - p.1) + (q.2 - p.2) * (q.2 - p.2) ≤ radius * radius)

/-- Model of `records_within` (src/Nodify.py lines 158-176).  The function
re-opens the input file and calls `f_input.filter(obj.bounds)`, but the
returned iterator is discarded, so the `for rec in f_input` loop that follows
iterates over the whole collection: the result is the id of every record,
independently of the query geometry.  The file's ids equal the in-memory ids
at every point of the run because thinning only mutates properties. -/
def records_within (recs : List PointRecord) : List ℕ :=
  recs.map (fun rec => rec.id)

/-- One iteration of the candidate loop of `thin_nodes`
(src/Nodify.py lines 135-141), for active record at position `x` with
(non-null) geometry `p` and one candidate id `search_id`:

* `shape(search_rec['geometry'])` of a null geometry raises
  (`Except.error "AttributeError"`);
* the conjunction of line 139 is evaluated left to right with
  short-circuiting, so the group lookups only happen when the id tests
  pass, and a record whose mapping lacks the group field then raises
  `KeyError`;
* when every test passes the candidate is excluded in place. -/
def probeStep (radius : ℚ) (p : ℚ × ℚ) (x : ℕ) (recs : List PointRecord)
    (search_id : ℕ) : Except String (List PointRecord) :=
  let active_rec := recs.getD x default
  let search_rec := recs.getD search_id default
  match search_rec.geom with
  | none => Except.error "AttributeError"
  | some q =>
    if within q p radius then
      if active_rec.id ≠ search_rec.id ∧ search_rec.id = search_id then
        match active_rec.group, search_rec.group with
        | some ga, some gs =>
          if ga = gs ∧ search_rec.INCLUDE = true ∧ active_rec.PROCESSED = false then
            Except.ok (recs.set search_id (excludeRec search_rec))
          else Except.ok recs
        | _, _ => Except.error "KeyError"
      else Except.ok recs
    else Except.ok recs

/-- One iteration of the main loop of `thin_nodes`
(src/Nodify.py lines 116-144), for active record at position `x`:
skip when `INCLUDE == 'N' or PROCESSED == 'Y'` (line 124); exclude the
active record itself when its geometry is null (lines 128-131); otherwise
scan every candidate id returned by `records_within` against the exact
radius buffer and finally reaffirm the active record as
`INCLUDE = 'Y', PROCESSED = 'N'` (lines 143-144). -/
def thinTurn (radius : ℚ) (recs : List PointRecord) (x : ℕ) :
    Except String (List PointRecord) :=
  let active_rec := recs.getD x default
  if active_rec.INCLUDE = false ∨ active_rec.PROCESSED = true then Except.ok recs
  else
    match active_rec.geom with
    | none => Except.ok (recs.set x (excludeRec active_rec))
    | some p =>
      match (records_within recs).foldlM (fun s sid => probeStep radius p x s sid) recs with
      | Except.error e => Except.error e
      | Except.ok recs2 =>
        Except.ok (recs2.set x { recs2.getD x default with INCLUDE := true, PROCESSED := false })

/-- The first `k` iterations of the main loop `for x in range(len(recs))`
of `thin_nodes` (src/Nodify.py line 116). -/
def thin_upto (radius : ℚ) (recs : List PointRecord) (k : ℕ) :
    Except String (List PointRecord) :=
  (List.range k).foldlM (fun s x => thinTurn radius s x) recs

/-- The complete mutation pass of `thin_nodes` over all records. -/
def thin_pass (radius : ℚ) (recs : List PointRecord) :
    Except String (List PointRecord) :=
  thin_upto radius recs recs.length

/-- `thin_nodes` (src/Nodify.py lines 91-156): run the mutation pass, then
write out exactly the records whose `INCLUDE` flag is `'Y'`
(lines 152-154). -/
def thin_nodes (radius : ℚ) (recs : List PointRecord) :
    Except String (List PointRecord) :=
  match thin_pass radius recs with
  | Except.error e => Except.error e
  | Except.ok final => Except.ok (final.filter (fun rec => rec.INCLUDE))

/-- The id of every record of a collection read by fiona equals its position
in the collection; shapefile record ids are "0", "1", ... in storage order. -/
def wfIds (recs : List PointRecord) : Bool :=
  (List.range recs.length).all (fun i => (recs.getD i default).id == i)

/-- Every record carries the fresh flags `INCLUDE = 'Y'`, `PROCESSED = 'N'`
that `add_nodes` stamps on the records it writes (src/Nodify.py
lines 80-81). -/
def allFresh (recs : List PointRecord) : Bool :=
  recs.all (fun rec => rec.INCLUDE && !rec.PROCESSED)

/-- The content of a record that is not a state flag: id, geometry, group
value and the remaining attributes. -/
def contentOf (rec : PointRecord) : ℕ × Option (ℚ × ℚ) × Option String × String :=
  (rec.id, rec.geom, rec.group, rec.payload)

/-- Fresh sequential record ids assigned by the feature store when a record
list is written to a new file and read back (fiona numbers the records of a
shapefile "0", "1", ... in write order); only the id changes. -/
def reindex (l : List PointRecord) : List PointRecord :=
  (List.range l.length).map (fun i => { l.getD i default with id := i })

/-- Lifting of the containment test to optional geometries: `false` when
either geometry is null. -/
def withinOpt (a b : Option (ℚ × ℚ)) (radius : ℚ) : Bool :=
  match a, b with
  | some q, some p => within q p radius
  | _, _ => false

/-- The complete exclusion condition of src/Nodify.py lines 138-139 for the
candidate at position `j`, probed by the active record at position `x` whose
geometry is `p`: the candidate's point lies in the exact radius buffer, the
two ids differ, the candidate's id matches the searched id, the two group
values exist and agree, the candidate is still included and the active
record is not processed. -/
def exclCond (radius : ℚ) (p : ℚ × ℚ) (x : ℕ) (recs : List PointRecord) (j : ℕ) : Prop :=
  withinOpt ((recs.getD j default).geom) (some p) radius = true ∧
  (recs.getD x default).id ≠ (recs.getD j default).id ∧
  (recs.getD j default).id = j ∧
  (recs.getD x default).group ≠ none ∧
  (recs.getD x default).group = (recs.getD j default).group ∧
  (recs.getD j default).INCLUDE = true ∧
  (recs.getD x default).PROCESSED = false

instance exclCondDec (radius : ℚ) (p : ℚ × ℚ) (x : ℕ) (recs : List PointRecord) (j : ℕ) :
    Decidable (exclCond radius p x recs j) := by
  unfold exclCond
  infer_instance

/-- Two records are in conflict when they are distinct positions holding
points within the thinning radius of one another and carrying the same
(present) group value: the only configuration in which one can exclude the
other. -/
def conflictWith (radius : ℚ) (recs : List PointRecord) (j m : ℕ) : Prop :=
  j ≠ m ∧
  withinOpt ((recs.getD m default).geom) ((recs.getD j default).geom) radius = true ∧
  (recs.getD j default).group ≠ none ∧
  (recs.getD j default).group = (recs.getD m default).group

/-- Concrete input for claim C4: two coincident points, the second one
without the group attribute. -/
def recsC4 : List PointRecord :=
  [⟨0, some (0, 0), some "A", true, false, "p0"⟩,
   ⟨1, some (0, 0), none, true, false, "p1"⟩]

/-- Concrete input for claim C5: a single record with a null geometry. -/
def recsC5 : List PointRecord :=
  [⟨0, none, some "A", true, false, "p0"⟩]

/-- Concrete input for claim C10: a single record with a null geometry. -/
def recsC10 : List PointRecord :=
  [⟨0, none, some "B", true, false, "q0"⟩]

/-- Concrete one-record input for the witness of claim C6. -/
def recsC6 : List PointRecord :=
  [⟨0, some (0, 0), some "A", true, false, "p0"⟩]

/-- Concrete same-group input for several witnesses: two points within
radius `2` of one another. -/
def recsC8 : List PointRecord :=
  [⟨0, some (0, 0), some "A", true, false, "p0"⟩,
   ⟨1, some (1, 0), some "A", true, false, "p1"⟩]

/-- State of `recsC8` after the probe turn of record `0` with radius `2`:
record `1` is excluded, record `0` reaffirmed. -/
def recsC8after : List PointRecord :=
  [⟨0, some (0, 0), some "A", true, false, "p0"⟩,
   ⟨1, some (1, 0), some "A", false, true, "p1"⟩]

/-- Output written by `thin_nodes` for `recsC8` with radius `2`. -/
def outC8 : List PointRecord :=
  [⟨0, some (0, 0), some "A", true, false, "p0"⟩]

theorem interpolateLoop_closed (L I : ℚ) (hI : 0 < I) :
    ∀ (fuel : ℕ) (d : ℚ), (⌈(L - d) / I⌉).toNat < fuel →
      interpolateLoop L I d fuel =
        some ((List.range (⌈(L - d) / I⌉).toNat).map (fun k : ℕ => d + (k : ℚ) * I)) := by
  intro fuel
  induction fuel with
  | zero => intro d h; exact absurd h (Nat.not_lt_zero _)
  | succ n ih =>
    intro d h
    by_cases hd : d < L
    · have hpos : (0 : ℚ) < (L - d) / I := div_pos (by linarith) hI
      have hc1 : 0 < ⌈(L - d) / I⌉ := Int.ceil_pos.mpr hpos
      have hql : (L - (d + I)) / I = (L - d) / I - 1 := by
        field_simp
        ring
      have hstep : ⌈(L - (d + I)) / I⌉ = ⌈(L - d) / I⌉ - 1 := by
        rw [hql, Int.ceil_sub_one]
      have hlt : (⌈(L - (d + I)) / I⌉).toNat < n := by rw [hstep]; omega
      have hm : (⌈(L - d) / I⌉).toNat = (⌈(L - (d + I)) / I⌉).toNat + 1 := by
        rw [hstep]; omega
      have hrec := ih (d + I) hlt
      rw [show interpolateLoop L I d (n + 1)
            = (interpolateLoop L I (d + I) n).map (fun l => d :: l) from by
          simp [interpolateLoop, hd]]
      rw [hrec, hm]
      simp only [Option.map_some']
      congr 1
      rw [List.range_succ_eq_map, List.map_cons, List.map_map]
      simp only [Nat.cast_zero, zero_mul, add_zero]
      have hfun : ((fun k : ℕ => d + (k : ℚ) * I) ∘ Nat.succ)
          = fun k : ℕ => d + I + (k : ℚ) * I := by
        funext k
        simp only [Function.comp_apply, Nat.succ_eq_add_one]
        push_cast
        ring
      rw [hfun]
    · have hnp : (L - d) / I ≤ 0 :=
        div_nonpos_of_nonpos_of_nonneg (by linarith) hI.le
      have hc0 : ⌈(L - d) / I⌉ ≤ 0 := by
        rw [Int.ceil_le]
        exact_mod_cast hnp
      have h0 : (⌈(L - d) / I⌉).toNat = 0 := by omega
      rw [h0]
      simp [interpolateLoop, hd]

/-- Claim C1, amended.  For a line of length `L` and interval `I > 0` the
sampling loop emits the points at distances `0, I, 2*I, ...` strictly below
`L`; their number is `⌈L / I⌉` (clamped at zero), not `⌊L / I⌋ + 1`: the two
agree unless `I` divides `L` (or `L ≤ 0`). -/
theorem claim_C1_amended (L I : ℚ) (hI : 0 < I) :
    add_nodes L I ((⌈L / I⌉).toNat + 1) =
      some ((List.range (⌈L / I⌉).toNat).map (fun k : ℕ => (k : ℚ) * I)) := by
  have h := interpolateLoop_closed L I hI ((⌈L / I⌉).toNat + 1) 0 (by simp)
  rw [add_nodes, h]
  simp

/-- Claim C1, counterexample.  For `L = 10000`, `I = 2500` the loop writes the
four points at distances `0, 2500, 5000, 7500`, while the claimed count
`⌊L / I⌋ + 1` is `5`. -/
theorem claim_C1_counterexample :
    (add_nodes 10000 2500 6).map List.length = some 4 ∧
      (add_nodes 10000 2500 6).map List.length ≠ some ((⌊(10000 : ℚ) / 2500⌋ + 1).toNat) := by
  have hlist : add_nodes 10000 2500 6 = some [0, 2500, 5000, 7500] := by
    norm_num [add_nodes, interpolateLoop]
  have hfloor : (⌊(10000 : ℚ) / 2500⌋ + 1).toNat = 5 := by
    norm_num
    rfl
  rw [hlist, hfloor]
  exact ⟨rfl, by decide⟩

/-- Claim C2, amended.  For a degenerate line of length `0` the loop guard
`d < length` fails at once (`0 < 0` is false), so `add_nodes` emits no point
at all, not one point at distance `0`. -/
theorem claim_C2_amended (I : ℚ) (fuel : ℕ) :
    add_nodes 0 I (fuel + 1) = some [] := by
  simp [add_nodes, interpolateLoop]

/-- Claim C2, counterexample.  For `L = 0`, `I = 1` the code emits zero
points, not the single point at distance `0` the claim requires. -/
theorem claim_C2_counterexample :
    (add_nodes 0 1 5).map List.length = some 0 ∧ (0 : ℕ) ≠ 1 := by
  constructor
  · decide
  · decide

/-- Claim C3 (code bug).  `add_nodes` performs no validation of `interval`:
for `interval = 0` and a line of length `1` the loop guard `d < length`
stays true forever (`d` never changes), so the loop never terminates for any
amount of fuel — there is no `InvalidParameter` failure and points are
written without bound. -/
theorem claim_C3_nontermination :
    ∀ fuel : ℕ, add_nodes 1 0 fuel = none := by
  have h : ∀ fuel : ℕ, interpolateLoop 1 0 0 fuel = none := by
    intro fuel
    induction fuel with
    | zero => rfl
    | succ n ih => simp [interpolateLoop, ih]
  intro fuel
  exact h fuel

/-- Witness for claim C1: the amended count theorem applied at the spec's own
example `L = 10000`, `I = 2500`. -/
theorem claim_C1_witness :
    0 < (2500 : ℚ) ∧
      add_nodes 10000 2500 ((⌈(10000 : ℚ) / 2500⌉).toNat + 1) =
        some ((List.range (⌈(10000 : ℚ) / 2500⌉).toNat).map (fun k : ℕ => (k : ℚ) * 2500)) :=
  ⟨by norm_num, claim_C1_amended 10000 2500 (by norm_num)⟩

theorem default_INCLUDE_false : (default : PointRecord).INCLUDE = false := rfl

theorem getD_set_ne (l : List PointRecord) (i j : ℕ) (a : PointRecord) (h : i ≠ j) :
    (l.set i a).getD j default = l.getD j default := by
  simp [List.getD, List.getElem?_set_ne h]

theorem getD_set_self (l : List PointRecord) (i : ℕ) (a : PointRecord) (h : i < l.length) :
    (l.set i a).getD i default = a := by
  simp [List.getD, List.getElem?_set_self, h]

theorem lt_length_of_INCLUDE (s : List PointRecord) (j : ℕ)
    (h : (s.getD j default).INCLUDE = true) : j < s.length := by
  by_contra hle
  push_neg at hle
  rw [List.getD_eq_default _ _ hle] at h
  simp [default_INCLUDE_false] at h

theorem eq_of_getD (s t : List PointRecord) (hl : t.length = s.length)
    (h : ∀ j, t.getD j default = s.getD j default) : t = s := by
  apply List.ext_getElem hl
  intro n h1 h2
  have := h n
  rwa [List.getD_eq_getElem _ _ h1, List.getD_eq_getElem _ _ h2] at this

theorem exceptBind_ok {α β : Type} (o : Except String α) (g : α → Except String β) (b : β)
    (h : (o >>= g) = Except.ok b) : ∃ a, o = Except.ok a ∧ g a = Except.ok b := by
  cases o with
  | error e => exact Except.noConfusion h
  | ok a => exact ⟨a, rfl, h⟩

theorem contentOf_excludeRec (rec : PointRecord) :
    contentOf (excludeRec rec) = contentOf rec := rfl

theorem excludeRec_INCLUDE (rec : PointRecord) : (excludeRec rec).INCLUDE = false := rfl

theorem excludeRec_PROCESSED (rec : PointRecord) : (excludeRec rec).PROCESSED = true := rfl

theorem reaffirm_eq_self (rec : PointRecord) (hI : rec.INCLUDE = true)
    (hP : rec.PROCESSED = false) :
    ({ rec with INCLUDE := true, PROCESSED := false } : PointRecord) = rec := by
  cases rec
  simp_all

theorem exclCond_self_false (radius : ℚ) (p : ℚ × ℚ) (x : ℕ) (s : List PointRecord) :
    ¬ exclCond radius p x s x := by
  rintro ⟨-, hne, -⟩
  exact hne rfl

theorem exclCond_congr (radius : ℚ) (p : ℚ × ℚ) (x : ℕ) (s s' : List PointRecord) (j : ℕ)
    (hx : s'.getD x default = s.getD x default) (hj : s'.getD j default = s.getD j default) :
    exclCond radius p x s' j ↔ exclCond radius p x s j := by
  unfold exclCond
  rw [hx, hj]

theorem probeStep_char (radius : ℚ) (p : ℚ × ℚ) (x : ℕ) (s : List PointRecord) (sid : ℕ)
    (t : List PointRecord) (h : probeStep radius p x s sid = Except.ok t) :
    t.length = s.length ∧
    (s.getD sid default).geom ≠ none ∧
    ∀ j, t.getD j default =
      (if j = sid ∧ exclCond radius p x s sid then excludeRec (s.getD sid default)
       else s.getD j default) := by
  cases hg : (s.getD sid default).geom with
  | none =>
    simp only [probeStep, hg] at h
    exact Except.noConfusion h
  | some q =>
    simp only [probeStep, hg] at h
    have hwopt : withinOpt ((s.getD sid default).geom) (some p) radius = within q p radius := by
      rw [hg]
      rfl
    by_cases hw : within q p radius = true
    · rw [if_pos hw] at h
      by_cases hid : ((s.getD x default).id ≠ (s.getD sid default).id ∧
          (s.getD sid default).id = sid)
      · rw [if_pos hid] at h
        cases hga : (s.getD x default).group with
        | none =>
          cases hgs : (s.getD sid default).group <;> simp only [hga, hgs] at h <;>
            exact Except.noConfusion h
        | some ga =>
          cases hgs : (s.getD sid default).group with
          | none =>
            simp only [hga, hgs] at h
            exact Except.noConfusion h
          | some gs =>
            simp only [hga, hgs] at h
            by_cases hrest : (ga = gs ∧ (s.getD sid default).INCLUDE = true ∧
                (s.getD x default).PROCESSED = false)
            · rw [if_pos hrest] at h
              have ht : t = s.set sid (excludeRec (s.getD sid default)) :=
                (Except.ok.inj h).symm
              have hsid : sid < s.length := lt_length_of_INCLUDE s sid hrest.2.1
              have hC : exclCond radius p x s sid :=
                ⟨by rw [hwopt]; exact hw, hid.1, hid.2, by rw [hga]; exact fun hc => Option.noConfusion hc,
                  by rw [hga, hgs, hrest.1], hrest.2.1, hrest.2.2⟩
              refine ⟨by rw [ht]; exact List.length_set .., fun hc => Option.noConfusion hc, ?_⟩
              intro j
              by_cases hj : j = sid
              · subst hj
                rw [if_pos ⟨rfl, hC⟩, ht, getD_set_self _ _ _ hsid]
              · rw [if_neg (fun hc => hj hc.1), ht,
                  getD_set_ne _ _ _ _ (fun hc => hj hc.symm)]
            · rw [if_neg hrest] at h
              have ht : t = s := (Except.ok.inj h).symm
              have hnC : ¬ exclCond radius p x s sid := by
                rintro ⟨-, -, -, -, hgeq, hInc, hPr⟩
                rw [hga, hgs] at hgeq
                exact hrest ⟨Option.some.inj hgeq, hInc, hPr⟩
              subst ht
              refine ⟨rfl, fun hc => Option.noConfusion hc, ?_⟩
              intro j
              rw [if_neg (fun hc => hnC hc.2)]
      · rw [if_neg hid] at h
        have ht : t = s := (Except.ok.inj h).symm
        have hnC : ¬ exclCond radius p x s sid := by
          rintro ⟨-, h1, h2, -⟩
          exact hid ⟨h1, h2⟩
        subst ht
        refine ⟨rfl, fun hc => Option.noConfusion hc, ?_⟩
        intro j
        rw [if_neg (fun hc => hnC hc.2)]
    · rw [if_neg hw] at h
      have ht : t = s := (Except.ok.inj h).symm
      have hnC : ¬ exclCond radius p x s sid := by
        rintro ⟨hw', -⟩
        rw [hwopt] at hw'
        exact hw hw'
      subst ht
      refine ⟨rfl, fun hc => Option.noConfusion hc, ?_⟩
      intro j
      rw [if_neg (fun hc => hnC hc.2)]

theorem probeStep_groups (radius : ℚ) (p : ℚ × ℚ) (x : ℕ) (s : List PointRecord) (sid : ℕ)
    (t : List PointRecord) (q : ℚ × ℚ) (h : probeStep radius p x s sid = Except.ok t)
    (hq : (s.getD sid default).geom = some q) (hw : within q p radius = true)
    (hid1 : (s.getD x default).id ≠ (s.getD sid default).id)
    (hid2 : (s.getD sid default).id = sid) :
    (s.getD x default).group ≠ none ∧ (s.getD sid default).group ≠ none := by
  simp only [probeStep, hq] at h
  rw [if_pos hw, if_pos ⟨hid1, hid2⟩] at h
  cases hga : (s.getD x default).group with
  | none =>
    cases hgs : (s.getD sid default).group <;> simp only [hga, hgs] at h <;>
      exact Except.noConfusion h
  | some ga =>
    cases hgs : (s.getD sid default).group with
    | none =>
      simp only [hga, hgs] at h
      exact Except.noConfusion h
    | some gs =>
      exact ⟨fun hc => Option.noConfusion hc, fun hc => Option.noConfusion hc⟩

theorem scan_char (radius : ℚ) (p : ℚ × ℚ) (x : ℕ) :
    ∀ (sids : List ℕ) (s t : List PointRecord),
      sids.foldlM (fun s sid => probeStep radius p x s sid) s = Except.ok t →
      t.length = s.length ∧
      (∀ m ∈ sids, (s.getD m default).geom ≠ none) ∧
      ∀ j, t.getD j default =
        (if j ∈ sids ∧ exclCond radius p x s j then excludeRec (s.getD j default)
         else s.getD j default) := by
  intro sids
  induction sids with
  | nil =>
    intro s t h
    have hts : s = t := by simpa [List.foldlM_nil, Pure.pure, Except.pure] using h
    subst hts
    refine ⟨rfl, by simp, ?_⟩
    intro j
    simp
  | cons sid rest ih =>
    intro s t h
    rw [List.foldlM_cons] at h
    obtain ⟨s₁, h₀, h₁⟩ := exceptBind_ok _ _ _ h
    obtain ⟨hlen1, hgeom1, hch1⟩ := probeStep_char radius p x s sid s₁ h₀
    obtain ⟨hlen2, hgeom2, hch2⟩ := ih s₁ t h₁
    have hstep : ∀ j, s₁.getD j default = s.getD j default ∨
        (j = sid ∧ exclCond radius p x s sid ∧
          s₁.getD j default = excludeRec (s.getD j default)) := by
      intro j
      by_cases hc : (j = sid ∧ exclCond radius p x s sid)
      · right
        refine ⟨hc.1, hc.2, ?_⟩
        rw [hch1 j, if_pos hc, hc.1]
      · left
        rw [hch1 j, if_neg hc]
    have hx1 : s₁.getD x default = s.getD x default := by
      rcases hstep x with hs | ⟨rfl, hC, -⟩
      · exact hs
      · exact absurd hC (exclCond_self_false radius p x s)
    refine ⟨hlen2.trans hlen1, ?_, ?_⟩
    · intro m hm
      rcases List.mem_cons.mp hm with rfl | hmr
      · exact hgeom1
      · have h2 := hgeom2 m hmr
        rcases hstep m with hs | ⟨-, -, hs⟩ <;> rw [hs] at h2
        · exact h2
        · exact h2
    · intro j
      by_cases hc : (j = sid ∧ exclCond radius p x s sid)
      · obtain ⟨rfl, hC⟩ := hc
        have hs1j : s₁.getD j default = excludeRec (s.getD j default) := by
          rcases hstep j with hs | ⟨-, -, hs⟩
          · rw [hch1 j, if_pos ⟨rfl, hC⟩]
          · exact hs
        have hnC1 : ¬ exclCond radius p x s₁ j := by
          rintro ⟨-, -, -, -, -, hInc, -⟩
          rw [hs1j] at hInc
          exact absurd hInc (by simp [excludeRec])
        rw [hch2 j, if_neg (fun hcc => hnC1 hcc.2), hs1j,
          if_pos ⟨List.mem_cons_self _ _, hC⟩]
      · have hs1j : s₁.getD j default = s.getD j default := by
          rcases hstep j with hs | ⟨h1, h2, -⟩
          · exact hs
          · exact absurd ⟨h1, h2⟩ hc
        have hCiff : exclCond radius p x s₁ j ↔ exclCond radius p x s j :=
          exclCond_congr radius p x s s₁ j hx1 hs1j
        rw [hch2 j, hs1j]
        by_cases hj : j = sid
        · subst hj
          have hnC : ¬ exclCond radius p x s j := fun hC => hc ⟨rfl, hC⟩
          rw [if_neg (fun hcc => hnC (hCiff.mp hcc.2)), if_neg (fun hcc => hnC hcc.2)]
        · by_cases hmem : j ∈ rest
          · by_cases hC : exclCond radius p x s j
            · rw [if_pos ⟨hmem, hCiff.mpr hC⟩, if_pos ⟨List.mem_cons_of_mem sid hmem, hC⟩]
            · rw [if_neg (fun hcc => hC (hCiff.mp hcc.2)), if_neg (fun hcc => hC hcc.2)]
          · have hnm : j ∉ sid :: rest := by
              intro hin
              rcases List.mem_cons.mp hin with rfl | hin
              · exact hj rfl
              · exact hmem hin
            rw [if_neg (fun hcc => hmem hcc.1), if_neg (fun hcc => hnm hcc.1)]

theorem scan_active (radius : ℚ) (p : ℚ × ℚ) (x : ℕ) (sids : List ℕ)
    (s t : List PointRecord)
    (h : sids.foldlM (fun s sid => probeStep radius p x s sid) s = Except.ok t) :
    t.getD x default = s.getD x default := by
  obtain ⟨-, -, hch⟩ := scan_char radius p x sids s t h
  rw [hch x, if_neg (fun hc => exclCond_self_false radius p x s hc.2)]

theorem scan_content (radius : ℚ) (p : ℚ × ℚ) (x : ℕ) (sids : List ℕ)
    (s t : List PointRecord)
    (h : sids.foldlM (fun s sid => probeStep radius p x s sid) s = Except.ok t) :
    ∀ j, contentOf (t.getD j default) = contentOf (s.getD j default) := by
  obtain ⟨-, -, hch⟩ := scan_char radius p x sids s t h
  intro j
  rw [hch j]
  by_cases hc : (j ∈ sids ∧ exclCond radius p x s j)
  · rw [if_pos hc, contentOf_excludeRec]
  · rw [if_neg hc]

theorem thinTurn_skip (radius : ℚ) (recs : List PointRecord) (x : ℕ)
    (h : (recs.getD x default).INCLUDE = false ∨ (recs.getD x default).PROCESSED = true) :
    thinTurn radius recs x = Except.ok recs := by
  simp only [thinTurn, if_pos h]

theorem thinTurn_char (radius : ℚ) (recs : List PointRecord) (x : ℕ) (t : List PointRecord)
    (h : thinTurn radius recs x = Except.ok t) :
    (((recs.getD x default).INCLUDE = false ∨ (recs.getD x default).PROCESSED = true) ∧
      t = recs) ∨
    ((recs.getD x default).INCLUDE = true ∧ (recs.getD x default).PROCESSED = false ∧
      (((recs.getD x default).geom = none ∧
          t = recs.set x (excludeRec (recs.getD x default))) ∨
       (∃ p u, (recs.getD x default).geom = some p ∧
         (records_within recs).foldlM (fun s sid => probeStep radius p x s sid) recs
           = Except.ok u ∧
         t = u.set x (recs.getD x default)))) := by
  by_cases hg : ((recs.getD x default).INCLUDE = false ∨ (recs.getD x default).PROCESSED = true)
  · left
    refine ⟨hg, ?_⟩
    rw [thinTurn_skip radius recs x hg] at h
    exact (Except.ok.inj h).symm
  · right
    have hI : (recs.getD x default).INCLUDE = true := by
      cases hb : (recs.getD x default).INCLUDE
      · exact absurd (Or.inl hb) hg
      · rfl
    have hP : (recs.getD x default).PROCESSED = false := by
      cases hb : (recs.getD x default).PROCESSED
      · rfl
      · exact absurd (Or.inr hb) hg
    refine ⟨hI, hP, ?_⟩
    simp only [thinTurn, if_neg hg] at h
    cases hgeo : (recs.getD x default).geom with
    | none =>
      simp only [hgeo] at h
      exact Or.inl ⟨rfl, (Except.ok.inj h).symm⟩
    | some p =>
      simp only [hgeo] at h
      cases hscan : (records_within recs).foldlM
          (fun s sid => probeStep radius p x s sid) recs with
      | error e =>
        rw [hscan] at h
        exact Except.noConfusion h
      | ok u =>
        rw [hscan] at h
        have hux : u.getD x default = recs.getD x default :=
          scan_active radius p x (records_within recs) recs u hscan
        have ht : t = u.set x { u.getD x default with INCLUDE := true, PROCESSED := false } :=
          (Except.ok.inj h).symm
        refine Or.inr ⟨p, u, rfl, hscan, ?_⟩
        rw [ht, hux, reaffirm_eq_self _ hI hP]

theorem thinTurn_length (radius : ℚ) (recs : List PointRecord) (x : ℕ) (t : List PointRecord)
    (h : thinTurn radius recs x = Except.ok t) : t.length = recs.length := by
  rcases thinTurn_char radius recs x t h with ⟨-, rfl⟩ | ⟨hI, hP, ⟨-, rfl⟩ | ⟨p, u, -, hscan, rfl⟩⟩
  · rfl
  · exact List.length_set ..
  · rw [List.length_set]
    exact (scan_char radius p x (records_within recs) recs u hscan).1

theorem thinTurn_content (radius : ℚ) (recs : List PointRecord) (x : ℕ) (t : List PointRecord)
    (h : thinTurn radius recs x = Except.ok t) :
    ∀ j, contentOf (t.getD j default) = contentOf (recs.getD j default) := by
  intro j
  rcases thinTurn_char radius recs x t h with ⟨-, rfl⟩ | ⟨hI, hP, ⟨-, rfl⟩ | ⟨p, u, -, hscan, rfl⟩⟩
  · rfl
  · have hx : x < recs.length := lt_length_of_INCLUDE recs x hI
    by_cases hj : j = x
    · subst hj
      rw [getD_set_self _ _ _ hx, contentOf_excludeRec]
    · rw [getD_set_ne _ _ _ _ (fun hc => hj hc.symm)]
  · have hul : u.length = recs.length :=
      (scan_char radius p x (records_within recs) recs u hscan).1
    have hx : x < u.length := by
      rw [hul]
      exact lt_length_of_INCLUDE recs x hI
    by_cases hj : j = x
    · subst hj
      rw [getD_set_self _ _ _ hx]
    · rw [getD_set_ne _ _ _ _ (fun hc => hj hc.symm)]
      exact scan_content radius p x (records_within recs) recs u hscan j

theorem thinTurn_frozen (radius : ℚ) (recs : List PointRecord) (x : ℕ) (t : List PointRecord)
    (h : thinTurn radius recs x = Except.ok t) (j : ℕ)
    (hj : (recs.getD j default).INCLUDE = false) :
    t.getD j default = recs.getD j default := by
  rcases thinTurn_char radius recs x t h with ⟨-, rfl⟩ | ⟨hI, hP, ⟨-, rfl⟩ | ⟨p, u, -, hscan, rfl⟩⟩
  · rfl
  · have hjx : j ≠ x := by
      intro hc
      rw [hc, hI] at hj
      exact Bool.noConfusion hj
    rw [getD_set_ne _ _ _ _ (fun hc => hjx hc.symm)]
  · have hjx : j ≠ x := by
      intro hc
      rw [hc, hI] at hj
      exact Bool.noConfusion hj
    rw [getD_set_ne _ _ _ _ (fun hc => hjx hc.symm)]
    obtain ⟨-, -, hch⟩ := scan_char radius p x (records_within recs) recs u hscan
    rw [hch j, if_neg ?_]
    rintro ⟨-, -, -, -, -, -, hInc, -⟩
    rw [hj] at hInc
    exact Bool.noConfusion hInc

theorem thinTurn_shape (radius : ℚ) (recs : List PointRecord) (x : ℕ) (t : List PointRecord)
    (h : thinTurn radius recs x = Except.ok t) (j : ℕ) :
    t.getD j default = recs.getD j default ∨
    t.getD j default = excludeRec (recs.getD j default) := by
  rcases thinTurn_char radius recs x t h with ⟨-, rfl⟩ | ⟨hI, hP, ⟨-, rfl⟩ | ⟨p, u, -, hscan, rfl⟩⟩
  · exact Or.inl rfl
  · have hx : x < recs.length := lt_length_of_INCLUDE recs x hI
    by_cases hj : j = x
    · subst hj
      exact Or.inr (getD_set_self _ _ _ hx)
    · exact Or.inl (getD_set_ne _ _ _ _ (fun hc => hj hc.symm))
  · have hul : u.length = recs.length :=
      (scan_char radius p x (records_within recs) recs u hscan).1
    have hx : x < u.length := by
      rw [hul]
      exact lt_length_of_INCLUDE recs x hI
    by_cases hj : j = x
    · subst hj
      exact Or.inl (getD_set_self _ _ _ hx)
    · rw [getD_set_ne _ _ _ _ (fun hc => hj hc.symm)]
      obtain ⟨-, -, hch⟩ := scan_char radius p x (records_within recs) recs u hscan
      rw [hch j]
      by_cases hc : (j ∈ records_within recs ∧ exclCond radius p x recs j)
      · rw [if_pos hc]
        exact Or.inr rfl
      · rw [if_neg hc]
        exact Or.inl rfl

theorem thinTurn_provenance (radius : ℚ) (recs : List PointRecord) (x : ℕ)
    (t : List PointRecord) (h : thinTurn radius recs x = Except.ok t) (j : ℕ)
    (honI : (recs.getD j default).INCLUDE = true)
    (hoffI : (t.getD j default).INCLUDE = false) :
    (recs.getD x default).INCLUDE = true ∧ (recs.getD x default).PROCESSED = false ∧
    t.getD j default = excludeRec (recs.getD j default) ∧
    ((j = x ∧ (recs.getD x default).geom = none) ∨
     (j ≠ x ∧ ∃ p, (recs.getD x default).geom = some p ∧ exclCond radius p x recs j)) := by
  rcases thinTurn_char radius recs x t h with ⟨-, rfl⟩ | ⟨hI, hP, ⟨hgeo, rfl⟩ | ⟨p, u, hgeo, hscan, rfl⟩⟩
  · rw [honI] at hoffI
    exact Bool.noConfusion hoffI
  · have hx : x < recs.length := lt_length_of_INCLUDE recs x hI
    by_cases hj : j = x
    · subst hj
      exact ⟨hI, hP, getD_set_self _ _ _ hx, Or.inl ⟨rfl, hgeo⟩⟩
    · rw [getD_set_ne _ _ _ _ (fun hc => hj hc.symm)] at hoffI
      rw [honI] at hoffI
      exact Bool.noConfusion hoffI
  · have hul : u.length = recs.length :=
      (scan_char radius p x (records_within recs) recs u hscan).1
    have hx : x < u.length := by
      rw [hul]
      exact lt_length_of_INCLUDE recs x hI
    by_cases hj : j = x
    · subst hj
      rw [getD_set_self _ _ _ hx, hI] at hoffI
      exact Bool.noConfusion hoffI
    · obtain ⟨-, -, hch⟩ := scan_char radius p x (records_within recs) recs u hscan
      rw [getD_set_ne _ _ _ _ (fun hc => hj hc.symm), hch j] at hoffI
      by_cases hc : (j ∈ records_within recs ∧ exclCond radius p x recs j)
      · refine ⟨hI, hP, ?_, Or.inr ⟨hj, p, hgeo, hc.2⟩⟩
        rw [getD_set_ne _ _ _ _ (fun hcc => hj hcc.symm), hch j, if_pos hc]
      · rw [if_neg hc, honI] at hoffI
        exact Bool.noConfusion hoffI

theorem thinTurn_tf_back (radius : ℚ) (recs : List PointRecord) (x : ℕ)
    (t : List PointRecord) (h : thinTurn radius recs x = Except.ok t) (j : ℕ)
    (htI : (t.getD j default).INCLUDE = true)
    (htP : (t.getD j default).PROCESSED = false) :
    (recs.getD j default).INCLUDE = true ∧ (recs.getD j default).PROCESSED = false := by
  rcases thinTurn_shape radius recs x t h j with hs | hs
  · rw [hs] at htI htP
    exact ⟨htI, htP⟩
  · rw [hs] at htI
    exact absurd htI (by simp [excludeRec])

theorem thin_upto_zero (radius : ℚ) (recs : List PointRecord) :
    thin_upto radius recs 0 = Except.ok recs := rfl

theorem thin_upto_succ (radius : ℚ) (recs : List PointRecord) (k : ℕ) :
    thin_upto radius recs (k + 1) =
      (thin_upto radius recs k) >>= fun s => thinTurn radius s k := by
  unfold thin_upto
  rw [List.range_succ, List.foldlM_append]
  simp only [List.foldlM_cons, List.foldlM_nil, bind_pure]

theorem thin_upto_pred (radius : ℚ) (recs : List PointRecord) (k : ℕ) (t : List PointRecord)
    (h : thin_upto radius recs (k + 1) = Except.ok t) :
    ∃ s, thin_upto radius recs k = Except.ok s ∧ thinTurn radius s k = Except.ok t := by
  rw [thin_upto_succ] at h
  exact exceptBind_ok _ _ _ h

theorem thin_upto_le_ok (radius : ℚ) (recs : List PointRecord) :
    ∀ (k' k : ℕ), k ≤ k' → ∀ t, thin_upto radius recs k' = Except.ok t →
      ∃ s, thin_upto radius recs k = Except.ok s := by
  intro k'
  induction k' with
  | zero =>
    intro k hk t h
    interval_cases k
    exact ⟨t, h⟩
  | succ n ih =>
    intro k hk t h
    rcases Nat.lt_succ_iff_lt_or_eq.mp (Nat.lt_succ_of_le hk) with hlt | rfl
    · obtain ⟨s, hs, -⟩ := thin_upto_pred radius recs n t h
      exact ih k (Nat.le_of_lt_succ hlt) s hs
    · exact ⟨t, h⟩

theorem thin_upto_length (radius : ℚ) (recs : List PointRecord) :
    ∀ (k : ℕ) (s : List PointRecord), thin_upto radius recs k = Except.ok s →
      s.length = recs.length := by
  intro k
  induction k with
  | zero =>
    intro s h
    rw [(Except.ok.inj h).symm]
  | succ n ih =>
    intro s h
    obtain ⟨u, hu, hturn⟩ := thin_upto_pred radius recs n s h
    rw [thinTurn_length radius u n s hturn]
    exact ih u hu

theorem thin_upto_content (radius : ℚ) (recs : List PointRecord) :
    ∀ (k : ℕ) (s : List PointRecord), thin_upto radius recs k = Except.ok s →
      ∀ j, contentOf (s.getD j default) = contentOf (recs.getD j default) := by
  intro k
  induction k with
  | zero =>
    intro s h j
    rw [(Except.ok.inj h).symm]
  | succ n ih =>
    intro s h j
    obtain ⟨u, hu, hturn⟩ := thin_upto_pred radius recs n s h
    rw [thinTurn_content radius u n s hturn j]
    exact ih u hu j

theorem thin_upto_frozen (radius : ℚ) (recs : List PointRecord) :
    ∀ (k' k : ℕ), k ≤ k' →
      ∀ (s s' : List PointRecord) (j : ℕ), thin_upto radius recs k = Except.ok s →
        thin_upto radius recs k' = Except.ok s' →
        (s.getD j default).INCLUDE = false →
        s'.getD j default = s.getD j default := by
  intro k'
  induction k' with
  | zero =>
    intro k hk s s' j hs hs' hInc
    interval_cases k
    rw [hs] at hs'
    rw [Except.ok.inj hs']
  | succ n ih =>
    intro k hk s s' j hs hs' hInc
    rcases Nat.lt_succ_iff_lt_or_eq.mp (Nat.lt_succ_of_le hk) with hlt | rfl
    · obtain ⟨u, hu, hturn⟩ := thin_upto_pred radius recs n s' hs'
      have hle : k ≤ n := Nat.le_of_lt_succ hlt
      have huj : u.getD j default = s.getD j default := ih k hle s u j hs hu hInc
      have huI : (u.getD j default).INCLUDE = false := by rw [huj]; exact hInc
      rw [thinTurn_frozen radius u n s' hturn j huI]
      exact huj
    · rw [hs] at hs'
      rw [Except.ok.inj hs']

theorem allFresh_getD (recs : List PointRecord) (h : allFresh recs = true) (j : ℕ)
    (hj : j < recs.length) :
    (recs.getD j default).INCLUDE = true ∧ (recs.getD j default).PROCESSED = false := by
  have hmem : recs.getD j default ∈ recs := by
    rw [List.getD_eq_getElem _ _ hj]
    exact List.getElem_mem hj
  have := List.all_eq_true.mp h _ hmem
  simp only [Bool.and_eq_true, Bool.not_eq_true'] at this
  exact this

theorem thin_upto_shape (radius : ℚ) (recs : List PointRecord) (hfresh : allFresh recs = true) :
    ∀ (k : ℕ) (s : List PointRecord), thin_upto radius recs k = Except.ok s →
      ∀ j, j < recs.length →
        ((s.getD j default).INCLUDE = true ∧ (s.getD j default).PROCESSED = false) ∨
        ((s.getD j default).INCLUDE = false ∧ (s.getD j default).PROCESSED = true) := by
  intro k
  induction k with
  | zero =>
    intro s h j hj
    rw [(Except.ok.inj h).symm]
    exact Or.inl (allFresh_getD recs hfresh j hj)
  | succ n ih =>
    intro s h j hj
    obtain ⟨u, hu, hturn⟩ := thin_upto_pred radius recs n s h
    rcases thinTurn_shape radius u n s hturn j with hsame | hexcl
    · rw [hsame]
      exact ih u hu j hj
    · rw [hexcl]
      exact Or.inr ⟨rfl, rfl⟩

theorem wfIds_getD (recs : List PointRecord) (h : wfIds recs = true) (j : ℕ)
    (hj : j < recs.length) : (recs.getD j default).id = j := by
  unfold wfIds at h
  have := List.all_eq_true.mp h j (List.mem_range.mpr hj)
  simpa using this

theorem thin_upto_id (radius : ℚ) (recs : List PointRecord) (hwf : wfIds recs = true)
    (k : ℕ) (s : List PointRecord) (h : thin_upto radius recs k = Except.ok s)
    (j : ℕ) (hj : j < recs.length) : (s.getD j default).id = j := by
  have hc := thin_upto_content radius recs k s h j
  have : (s.getD j default).id = (recs.getD j default).id := congrArg Prod.fst hc
  rw [this]
  exact wfIds_getD recs hwf j hj

theorem records_within_eq_range (s : List PointRecord)
    (hid : ∀ j, j < s.length → (s.getD j default).id = j) :
    records_within s = List.range s.length := by
  apply List.ext_getElem (by simp [records_within])
  intro n h1 h2
  have hn : n < s.length := by simpa [records_within] using h1
  simp only [records_within, List.getElem_map, List.getElem_range]
  rw [← List.getD_eq_getElem s default hn]
  exact hid n hn

theorem mem_records_within (s : List PointRecord) (j : ℕ)
    (hid : ∀ i, i < s.length → (s.getD i default).id = i) (hj : j < s.length) :
    j ∈ records_within s := by
  rw [records_within_eq_range s hid]
  exact List.mem_range.mpr hj

theorem within_comm (q p : ℚ × ℚ) (radius : ℚ) : within q p radius = within p q radius := by
  unfold within
  have harith : (q.1 - p.1) * (q.1 - p.1) + (q.2 - p.2) * (q.2 - p.2)
      = (p.1 - q.1) * (p.1 - q.1) + (p.2 - q.2) * (p.2 - q.2) := by ring
  rw [harith]

theorem contentOf_geom (a b : PointRecord) (h : contentOf a = contentOf b) : a.geom = b.geom := by
  unfold contentOf at h
  exact congrArg (fun c => c.2.1) h

theorem contentOf_group (a b : PointRecord) (h : contentOf a = contentOf b) :
    a.group = b.group := by
  unfold contentOf at h
  exact congrArg (fun c => c.2.2.1) h

theorem probed_turn_excludes (radius : ℚ) (recs : List PointRecord)
    (hid : ∀ i, i < recs.length → (recs.getD i default).id = i)
    (x : ℕ) (t : List PointRecord) (h : thinTurn radius recs x = Except.ok t)
    (hI : (recs.getD x default).INCLUDE = true)
    (hP : (recs.getD x default).PROCESSED = false)
    (p : ℚ × ℚ) (hgeo : (recs.getD x default).geom = some p)
    (m : ℕ) (hm : m < recs.length) (hmx : m ≠ x)
    (q : ℚ × ℚ) (hq : (recs.getD m default).geom = some q)
    (hw : within q p radius = true)
    (g : String) (hgx : (recs.getD x default).group = some g)
    (hgm : (recs.getD m default).group = some g) :
    (t.getD m default).INCLUDE = false := by
  rcases thinTurn_char radius recs x t h with ⟨hskip, -⟩ |
    ⟨-, -, ⟨hnone, -⟩ | ⟨p', u, hgeo', hscan, rfl⟩⟩
  · rcases hskip with hc | hc
    · rw [hI] at hc
      exact Bool.noConfusion hc
    · rw [hP] at hc
      exact Bool.noConfusion hc
  · rw [hgeo] at hnone
    exact Option.noConfusion hnone
  · have hp' : p' = p := by
      rw [hgeo] at hgeo'
      exact (Option.some.inj hgeo').symm
    rw [hp'] at hscan
    have hx : x < recs.length := lt_length_of_INCLUDE recs x hI
    rw [getD_set_ne _ _ _ _ (fun hc => hmx hc.symm)]
    obtain ⟨-, -, hch⟩ := scan_char radius p x (records_within recs) recs u hscan
    rw [hch m]
    by_cases hc : (m ∈ records_within recs ∧ exclCond radius p x recs m)
    · rw [if_pos hc]
      exact excludeRec_INCLUDE _
    · rw [if_neg hc]
      by_cases hInc : (recs.getD m default).INCLUDE = true
      · exfalso
        apply hc
        refine ⟨mem_records_within recs m hid hm, ?_, ?_, hid m hm, ?_, ?_, hInc, hP⟩
        · rw [hq]
          exact hw
        · rw [hid x hx, hid m hm]
          exact fun hc => hmx hc.symm
        · rw [hgx]
          exact fun hc => Option.noConfusion hc
        · rw [hgx, hgm]
      · cases hb : (recs.getD m default).INCLUDE
        · rfl
        · exact absurd hb hInc

theorem probed_stays (radius : ℚ) (recs : List PointRecord) (hwf : wfIds recs = true)
    (j : ℕ) (hj : j < recs.length) (tj : List PointRecord)
    (htj : thin_upto radius recs j = Except.ok tj)
    (hI : (tj.getD j default).INCLUDE = true)
    (hP : (tj.getD j default).PROCESSED = false)
    (p : ℚ × ℚ) (hgeo : (tj.getD j default).geom = some p) :
    ∀ (k : ℕ) (s : List PointRecord), thin_upto radius recs k = Except.ok s → j < k →
      s.getD j default = tj.getD j default ∧
      (∀ m, m < recs.length → m ≠ j →
        (∃ q g, (tj.getD m default).geom = some q ∧ within q p radius = true ∧
          (tj.getD j default).group = some g ∧ (tj.getD m default).group = some g) →
        (s.getD m default).INCLUDE = false) := by
  have hid_tj : ∀ i, i < tj.length → (tj.getD i default).id = i := by
    intro i hi
    exact thin_upto_id radius recs hwf j tj htj i
      (by rwa [thin_upto_length radius recs j tj htj] at hi)
  have hlen_tj : tj.length = recs.length := thin_upto_length radius recs j tj htj
  intro k
  induction k with
  | zero =>
    intro s hs hjk
    exact absurd hjk (Nat.not_lt_zero j)
  | succ n ih =>
    intro s hs hjk
    obtain ⟨u, hu, hturn⟩ := thin_upto_pred radius recs n s hs
    rcases Nat.lt_succ_iff_lt_or_eq.mp hjk with hlt | rfl
    · -- turn n comes after j's turn: the invariant holds at u and is preserved
      obtain ⟨huj, hum⟩ := ih u hu hlt
      have hcontent_u : ∀ i, contentOf (u.getD i default) = contentOf (tj.getD i default) :=
        fun i => (thin_upto_content radius recs n u hu i).trans
          (thin_upto_content radius recs j tj htj i).symm
      constructor
      · -- the record at j is untouched by turn n
        rcases thinTurn_char radius u n s hturn with ⟨-, rfl⟩ |
          ⟨huI, huP, ⟨-, rfl⟩ | ⟨pn, w, hgeon, hscan, rfl⟩⟩
        · exact huj
        · have hn : n < u.length := lt_length_of_INCLUDE u n huI
          rw [getD_set_ne _ _ _ _ (fun hc => Nat.ne_of_lt hlt hc.symm)]
          exact huj
        · have hnlen : n < u.length := lt_length_of_INCLUDE u n huI
          have hnrecs : n < recs.length := by
            rwa [thin_upto_length radius recs n u hu] at hnlen
          -- n is not in conflict with j, else its INCLUDE flag would be false
          have hnconf : ¬ (∃ q g, (tj.getD n default).geom = some q ∧
              within q p radius = true ∧ (tj.getD j default).group = some g ∧
              (tj.getD n default).group = some g) := by
            intro hconf
            have := hum n hnrecs (Nat.ne_of_gt hlt) hconf
            rw [this] at huI
            exact Bool.noConfusion huI
          rw [getD_set_ne _ _ _ _ (fun hc => Nat.ne_of_lt hlt hc.symm)]
          obtain ⟨-, -, hch⟩ := scan_char radius pn n (records_within u) u w hscan
          rw [hch j]
          rw [if_neg ?_]
          · exact huj
          · rintro ⟨-, hwj, -, -, hgne, hgeq, -, -⟩
            apply hnconf
            have hgeomn : (u.getD n default).geom = (tj.getD n default).geom :=
              contentOf_geom _ _ (hcontent_u n)
            have hgroupn : (u.getD n default).group = (tj.getD n default).group :=
              contentOf_group _ _ (hcontent_u n)
            obtain ⟨gn, hgn⟩ := Option.ne_none_iff_exists'.mp hgne
            have hjgeom : (u.getD j default).geom = some p := by
              rw [huj]
              exact hgeo
            rw [hjgeom] at hwj
            have hwj' : within p pn radius = true := hwj
            refine ⟨pn, gn, ?_, ?_, ?_, ?_⟩
            · rw [← hgeomn]
              exact hgeon
            · rw [within_comm]
              exact hwj'
            · have : (u.getD j default).group = (tj.getD j default).group := by rw [huj]
              rw [← this, ← hgeq]
              exact hgn
            · rw [← hgroupn]
              exact hgn
      · -- excluded conflicting records stay excluded
        intro m hm hmj hconf
        have hexcl := hum m hm hmj hconf
        rw [thinTurn_frozen radius u n s hturn m hexcl]
        exact hexcl
    · -- the turn of j itself: reaffirmed and all conflicting records excluded
      have htjeq : u = tj := by
        rw [htj] at hu
        exact (Except.ok.inj hu).symm
      subst htjeq
      constructor
      · rcases thinTurn_char radius u j s hturn with ⟨hskip, -⟩ |
          ⟨-, -, ⟨hnone, -⟩ | ⟨p', w, hgeo', hscan, rfl⟩⟩
        · rcases hskip with hc | hc
          · rw [hI] at hc
            exact Bool.noConfusion hc
          · rw [hP] at hc
            exact Bool.noConfusion hc
        · rw [hgeo] at hnone
          exact Option.noConfusion hnone
        · have hjlen : j < w.length := by
            rw [(scan_char radius p' j (records_within u) u w hscan).1, hlen_tj]
            exact hj
          exact getD_set_self _ _ _ hjlen
      · intro m hm hmj hconf
        obtain ⟨q, g, hqm, hwm, hgj, hgm⟩ := hconf
        exact probed_turn_excludes radius u (fun i hi => hid_tj i hi) j s hturn hI hP p hgeo
          m (by rwa [hlen_tj]) hmj q hqm hwm g hgj hgm

theorem kept_tf_probed (radius : ℚ) (recs : List PointRecord) :
    ∀ (k : ℕ) (s : List PointRecord), thin_upto radius recs k = Except.ok s →
      ∀ j, j < k → (s.getD j default).INCLUDE = true →
        (s.getD j default).PROCESSED = false →
        ∃ (tj : List PointRecord) (p : ℚ × ℚ),
          thin_upto radius recs j = Except.ok tj ∧
          (tj.getD j default).INCLUDE = true ∧ (tj.getD j default).PROCESSED = false ∧
          (tj.getD j default).geom = some p := by
  intro k
  induction k with
  | zero =>
    intro s h j hj
    exact absurd hj (Nat.not_lt_zero j)
  | succ n ih =>
    intro s h j hj hsI hsP
    obtain ⟨u, hu, hturn⟩ := thin_upto_pred radius recs n s h
    obtain ⟨huI, huP⟩ := thinTurn_tf_back radius u n s hturn j hsI hsP
    rcases Nat.lt_succ_iff_lt_or_eq.mp hj with hlt | rfl
    · exact ih u hu j hlt huI huP
    · refine ⟨u, ?_⟩
      rcases thinTurn_char radius u j s hturn with ⟨hskip, -⟩ |
        ⟨-, -, ⟨hnone, rfl⟩ | ⟨p', w, hgeo', hscan, rfl⟩⟩
      · exfalso
        rcases hskip with hc | hc
        · rw [huI] at hc
          exact Bool.noConfusion hc
        · rw [huP] at hc
          exact Bool.noConfusion hc
      · exfalso
        have hjlen : j < u.length := lt_length_of_INCLUDE u j huI
        rw [getD_set_self _ _ _ hjlen] at hsI
        exact absurd hsI (by simp [excludeRec])
      · exact ⟨p', hu, huI, huP, hgeo'⟩

theorem probed_all_geoms (radius : ℚ) (recs : List PointRecord)
    (hid : ∀ i, i < recs.length → (recs.getD i default).id = i)
    (x : ℕ) (t : List PointRecord) (h : thinTurn radius recs x = Except.ok t)
    (hI : (recs.getD x default).INCLUDE = true)
    (hP : (recs.getD x default).PROCESSED = false)
    (p : ℚ × ℚ) (hgeo : (recs.getD x default).geom = some p) :
    ∀ m, m < recs.length → (recs.getD m default).geom ≠ none := by
  intro m hm
  rcases thinTurn_char radius recs x t h with ⟨hskip, -⟩ |
    ⟨-, -, ⟨hnone, -⟩ | ⟨p', u, hgeo', hscan, rfl⟩⟩
  · rcases hskip with hc | hc
    · rw [hI] at hc
      exact Bool.noConfusion hc
    · rw [hP] at hc
      exact Bool.noConfusion hc
  · rw [hgeo] at hnone
    exact Option.noConfusion hnone
  · exact (scan_char radius p' x (records_within recs) recs u hscan).2.1 m
      (mem_records_within recs m hid hm)

theorem contentOf_id (a b : PointRecord) (h : contentOf a = contentOf b) : a.id = b.id := by
  unfold contentOf at h
  exact congrArg Prod.fst h

theorem probeStep_content (radius : ℚ) (p : ℚ × ℚ) (x : ℕ) (s : List PointRecord) (sid : ℕ)
    (t : List PointRecord) (h : probeStep radius p x s sid = Except.ok t) :
    ∀ j, contentOf (t.getD j default) = contentOf (s.getD j default) := by
  obtain ⟨-, -, hch⟩ := probeStep_char radius p x s sid t h
  intro j
  rw [hch j]
  by_cases hc : (j = sid ∧ exclCond radius p x s sid)
  · rw [if_pos hc, contentOf_excludeRec, hc.1]
  · rw [if_neg hc]

theorem scan_groups (radius : ℚ) (p : ℚ × ℚ) (x : ℕ) :
    ∀ (sids : List ℕ) (s t : List PointRecord),
      sids.foldlM (fun s sid => probeStep radius p x s sid) s = Except.ok t →
      ∀ sid ∈ sids, ∀ q, (s.getD sid default).geom = some q → within q p radius = true →
        (s.getD x default).id ≠ (s.getD sid default).id → (s.getD sid default).id = sid →
        (s.getD x default).group ≠ none ∧ (s.getD sid default).group ≠ none := by
  intro sids
  induction sids with
  | nil =>
    intro s t h sid hmem
    exact absurd hmem (List.not_mem_nil sid)
  | cons sid₀ rest ih =>
    intro s t h sid hmem q hq hw hne hid
    rw [List.foldlM_cons] at h
    obtain ⟨s₁, h₀, h₁⟩ := exceptBind_ok _ _ _ h
    rcases List.mem_cons.mp hmem with rfl | hmr
    · exact probeStep_groups radius p x s sid s₁ q h₀ hq hw hne hid
    · have hcont := probeStep_content radius p x s sid₀ s₁ h₀
      have hgeom : (s₁.getD sid default).geom = some q := by
        rw [contentOf_geom _ _ (hcont sid)]
        exact hq
      have hidx : (s₁.getD x default).id = (s.getD x default).id :=
        contentOf_id _ _ (hcont x)
      have hidsid : (s₁.getD sid default).id = (s.getD sid default).id :=
        contentOf_id _ _ (hcont sid)
      have h2 := ih s₁ t h₁ sid hmr q hgeom hw
        (by rw [hidx, hidsid]; exact hne) (by rw [hidsid]; exact hid)
      have hgx : (s₁.getD x default).group = (s.getD x default).group :=
        contentOf_group _ _ (hcont x)
      have hgs : (s₁.getD sid default).group = (s.getD sid default).group :=
        contentOf_group _ _ (hcont sid)
      constructor
      · rw [← hgx]
        exact h2.1
      · rw [← hgs]
        exact h2.2

theorem scan_const (radius : ℚ) (p : ℚ × ℚ) (x : ℕ) :
    ∀ (sids : List ℕ) (s : List PointRecord),
      (∀ sid ∈ sids, probeStep radius p x s sid = Except.ok s) →
      sids.foldlM (fun s sid => probeStep radius p x s sid) s = Except.ok s := by
  intro sids
  induction sids with
  | nil =>
    intro s h
    rfl
  | cons sid rest ih =>
    intro s h
    rw [List.foldlM_cons, h sid (List.mem_cons_self _ _)]
    show rest.foldlM (fun s sid => probeStep radius p x s sid) s = Except.ok s
    exact ih s (fun sid' hm => h sid' (List.mem_cons_of_mem _ hm))

theorem set_getD_eq_self : ∀ (l : List PointRecord) (i : ℕ),
    l.set i (l.getD i default) = l := by
  intro l
  induction l with
  | nil => intro i; rfl
  | cons hd tl ih =>
    intro i
    cases i with
    | zero => rfl
    | succ n =>
      show hd :: tl.set n (tl.getD n default) = hd :: tl
      rw [ih n]

theorem reindex_length (l : List PointRecord) : (reindex l).length = l.length := by
  simp [reindex]

theorem reindex_getD (l : List PointRecord) (i : ℕ) (h : i < l.length) :
    (reindex l).getD i default = { l.getD i default with id := i } := by
  unfold reindex
  have hlen : i < ((List.range l.length).map
      (fun i => { l.getD i default with id := i } : ℕ → PointRecord)).length := by
    simpa using h
  rw [List.getD_eq_getElem _ _ hlen]
  simp

theorem reindex_id (l : List PointRecord) (i : ℕ) (h : i < (reindex l).length) :
    ((reindex l).getD i default).id = i := by
  rw [reindex_length] at h
  rw [reindex_getD l i h]

theorem thin_nodes_ok (radius : ℚ) (recs out : List PointRecord)
    (h : thin_nodes radius recs = Except.ok out) :
    ∃ final, thin_pass radius recs = Except.ok final ∧
      out = final.filter (fun rec => rec.INCLUDE) := by
  unfold thin_nodes at h
  cases hp : thin_pass radius recs with
  | error e =>
    rw [hp] at h
    exact Except.noConfusion h
  | ok final =>
    rw [hp] at h
    exact ⟨final, rfl, (Except.ok.inj h).symm⟩

theorem getD_mem (s : List PointRecord) (n : ℕ) (h : n < s.length) :
    s.getD n default ∈ s := by
  rw [List.getD_eq_getElem _ _ h]
  exact List.getElem_mem h

theorem mem_final_origin (final : List PointRecord)
    (hid : ∀ i, i < final.length → (final.getD i default).id = i)
    (r : PointRecord) (hr : r ∈ final) :
    r.id < final.length ∧ final.getD r.id default = r := by
  obtain ⟨k, hk, hkr⟩ := List.mem_iff_getElem.mp hr
  have hkd : final.getD k default = r := by
    rw [List.getD_eq_getElem _ _ hk]
    exact hkr
  have hkid : r.id = k := by
    rw [← hkd]
    exact hid k hk
  rw [hkid]
  exact ⟨hk, hkd⟩

theorem thin_upto_const (radius : ℚ) (o : List PointRecord)
    (h : ∀ x, thinTurn radius o x = Except.ok o) :
    ∀ k, thin_upto radius o k = Except.ok o := by
  intro k
  induction k with
  | zero => rfl
  | succ n ih =>
    rw [thin_upto_succ, ih]
    show thinTurn radius o n = Except.ok o
    exact h n


/-- Claim C8: thinning is idempotent.  If `thin_nodes` succeeds on an input
collection whose record ids equal their positions (as fiona guarantees for
every collection it reads), then re-running `thin_nodes` with the same radius
and group field on its written output — whose records receive fresh
sequential ids from the feature store, modelled by `reindex` — excludes no
further record and changes nothing: the thinned output is a fixed point. -/
theorem claim_C8_idempotent (radius : ℚ) (recs out : List PointRecord)
    (hwf : wfIds recs = true) (hout : thin_nodes radius recs = Except.ok out) :
    thin_nodes radius (reindex out) = Except.ok (reindex out) := by
  obtain ⟨final, hpass, hfilter⟩ := thin_nodes_ok radius recs out hout
  have hupton : thin_upto radius recs recs.length = Except.ok final := hpass
  have hlenf : final.length = recs.length :=
    thin_upto_length radius recs recs.length final hupton
  have hidf : ∀ i, i < final.length → (final.getD i default).id = i := by
    intro i hi
    exact thin_upto_id radius recs hwf recs.length final hupton i (by rwa [hlenf] at hi)
  have hcontf : ∀ i, contentOf (final.getD i default) = contentOf (recs.getD i default) :=
    thin_upto_content radius recs recs.length final hupton
  have hmem_out : ∀ r ∈ out, r ∈ final ∧ r.INCLUDE = true := by
    intro r hr
    rw [hfilter] at hr
    have hmf := List.mem_filter.mp hr
    exact ⟨hmf.1, by simpa using hmf.2⟩
  have hmapid : final.map (fun rec => rec.id) = List.range final.length := by
    have h := records_within_eq_range final hidf
    simpa [records_within] using h
  have hnodup : (out.map (fun rec => rec.id)).Nodup := by
    have hsub : List.Sublist (out.map (fun rec => rec.id))
        (final.map (fun rec => rec.id)) := by
      rw [hfilter]
      exact List.Sublist.map _ (List.filter_sublist final)
    rw [hmapid] at hsub
    exact List.Nodup.sublist hsub (List.nodup_range _)
  have holen : (reindex out).length = out.length := reindex_length out
  have hogetD : ∀ i, i < out.length →
      (reindex out).getD i default = { out.getD i default with id := i } :=
    fun i hi => reindex_getD out i hi
  have hoid : ∀ i, i < (reindex out).length → ((reindex out).getD i default).id = i :=
    fun i hi => reindex_id out i hi
  have horigin : ∀ i, i < out.length →
      (out.getD i default).id < final.length ∧
      final.getD (out.getD i default).id default = out.getD i default ∧
      (out.getD i default).INCLUDE = true := by
    intro i hi
    have hmem : out.getD i default ∈ out := getD_mem out i hi
    obtain ⟨hf, hI⟩ := hmem_out _ hmem
    obtain ⟨h1, h2⟩ := mem_final_origin final hidf _ hf
    exact ⟨h1, h2, hI⟩
  have hids_inj : ∀ i i', i < out.length → i' < out.length → i ≠ i' →
      (out.getD i default).id ≠ (out.getD i' default).id := by
    intro i i' hi hi' hne hcc
    apply hne
    have hli : i < (out.map (fun rec => rec.id)).length := by simpa using hi
    have hli' : i' < (out.map (fun rec => rec.id)).length := by simpa using hi'
    have hgg : (out.map (fun rec => rec.id))[i] = (out.map (fun rec => rec.id))[i'] := by
      rw [List.getElem_map, List.getElem_map,
        ← List.getD_eq_getElem out default hi, ← List.getD_eq_getElem out default hi', hcc]
    exact (List.Nodup.getElem_inj_iff hnodup).mp hgg
  have hturn_const : ∀ x, thinTurn radius (reindex out) x = Except.ok (reindex out) := by
    intro x
    by_cases hx : x < out.length
    · have hox := hogetD x hx
      have hIx : ((reindex out).getD x default).INCLUDE = true := by
        rw [hox]
        exact (horigin x hx).2.2
      by_cases hPx : ((reindex out).getD x default).PROCESSED = true
      · exact thinTurn_skip radius (reindex out) x (Or.inr hPx)
      · have hPx' : ((reindex out).getD x default).PROCESSED = false := by
          cases hb : ((reindex out).getD x default).PROCESSED
          · rfl
          · exact absurd hb hPx
        obtain ⟨hjxlt, hjxeq, -⟩ := horigin x hx
        have hfI : (final.getD (out.getD x default).id default).INCLUDE = true := by
          rw [hjxeq]
          exact (horigin x hx).2.2
        have hfP : (final.getD (out.getD x default).id default).PROCESSED = false := by
          rw [hjxeq]
          have hh : ((reindex out).getD x default).PROCESSED
              = (out.getD x default).PROCESSED := by
            rw [hox]
          rw [← hh]
          exact hPx'
        have hjxn : (out.getD x default).id < recs.length := by rwa [hlenf] at hjxlt
        obtain ⟨tj, p, htj, htjI, htjP, htjgeo⟩ :=
          kept_tf_probed radius recs recs.length final hupton
            (out.getD x default).id hjxn hfI hfP
        have hconttj : ∀ i, contentOf (tj.getD i default) = contentOf (recs.getD i default) :=
          thin_upto_content radius recs (out.getD x default).id tj htj
        have hlentj : tj.length = recs.length :=
          thin_upto_length radius recs (out.getD x default).id tj htj
        have hidtj : ∀ i, i < tj.length → (tj.getD i default).id = i := by
          intro i hi
          exact thin_upto_id radius recs hwf (out.getD x default).id tj htj i
            (by rwa [hlentj] at hi)
        have hgtrans : ∀ i, (final.getD i default).group = (tj.getD i default).group := by
          intro i
          rw [contentOf_group _ _ (hcontf i), ← contentOf_group _ _ (hconttj i)]
        have hgeotrans : ∀ i, (final.getD i default).geom = (tj.getD i default).geom := by
          intro i
          rw [contentOf_geom _ _ (hcontf i), ← contentOf_geom _ _ (hconttj i)]
        obtain ⟨t1, ht1⟩ := thin_upto_le_ok radius recs recs.length
          ((out.getD x default).id + 1) (Nat.succ_le_of_lt hjxn) final hupton
        obtain ⟨u1, hu1, hturn1⟩ := thin_upto_pred radius recs (out.getD x default).id t1 ht1
        have hu1tj : tj = u1 := by
          rw [htj] at hu1
          exact Except.ok.inj hu1
        rw [← hu1tj] at hturn1
        have hallgeom : ∀ i, i < tj.length → (tj.getD i default).geom ≠ none :=
          probed_all_geoms radius tj hidtj (out.getD x default).id t1 hturn1 htjI htjP p htjgeo
        rcases thinTurn_char radius tj (out.getD x default).id t1 hturn1 with ⟨hskip, -⟩ |
          ⟨-, -, ⟨hnone, -⟩ | ⟨p', w, hgeo1, hscan1, -⟩⟩
        · rcases hskip with hc | hc
          · rw [htjI] at hc
            exact absurd hc (by simp)
          · rw [htjP] at hc
            exact absurd hc (by simp)
        · rw [htjgeo] at hnone
          exact absurd hnone (by simp)
        · have hp' : p' = p := by
            rw [htjgeo] at hgeo1
            exact (Option.some.inj hgeo1).symm
          rw [hp'] at hscan1
          have hstays := probed_stays radius recs hwf (out.getD x default).id hjxn tj htj
            htjI htjP p htjgeo recs.length final hupton hjxn
          have hogeox : ((reindex out).getD x default).geom = some p := by
            rw [hox]
            show (out.getD x default).geom = some p
            rw [← hjxeq, hgeotrans ((out.getD x default).id), htjgeo]
          have hstepid : ∀ sid ∈ records_within (reindex out),
              probeStep radius p x (reindex out) sid = Except.ok (reindex out) := by
            intro sid hsid
            have hsidm : sid < out.length := by
              have hrr : records_within (reindex out) = List.range (reindex out).length :=
                records_within_eq_range (reindex out) hoid
              rw [hrr, List.mem_range, holen] at hsid
              exact hsid
            have hosid := hogetD sid hsidm
            obtain ⟨hjsidlt, hjsideq, hjsidI⟩ := horigin sid hsidm
            have hjsidn : (out.getD sid default).id < recs.length := by rwa [hlenf] at hjsidlt
            have hgeos_ne : (tj.getD (out.getD sid default).id default).geom ≠ none :=
              hallgeom (out.getD sid default).id (by rwa [hlentj])
            obtain ⟨qs, hqs⟩ := Option.ne_none_iff_exists'.mp hgeos_ne
            have hosgeom : ((reindex out).getD sid default).geom = some qs := by
              rw [hosid]
              show (out.getD sid default).geom = some qs
              rw [← hjsideq, hgeotrans ((out.getD sid default).id), hqs]
            simp only [probeStep, hosgeom]
            by_cases hw : within qs p radius = true
            · rw [if_pos hw]
              by_cases hxs : x = sid
              · subst hxs
                rw [if_neg (fun hc => hc.1 rfl)]
              · have hidox : ((reindex out).getD x default).id = x :=
                  hoid x (by rwa [holen])
                have hidos : ((reindex out).getD sid default).id = sid :=
                  hoid sid (by rwa [holen])
                rw [if_pos ⟨by rw [hidox, hidos]; exact hxs, hidos⟩]
                have hjne : (out.getD x default).id ≠ (out.getD sid default).id :=
                  hids_inj x sid hx hsidm hxs
                have hgroups := scan_groups radius p (out.getD x default).id
                  (records_within tj) tj w hscan1 (out.getD sid default).id
                  (mem_records_within tj (out.getD sid default).id hidtj (by rwa [hlentj]))
                  qs hqs hw
                  (by rw [hidtj (out.getD x default).id (by rwa [hlentj]),
                        hidtj (out.getD sid default).id (by rwa [hlentj])]
                      exact hjne)
                  (hidtj (out.getD sid default).id (by rwa [hlentj]))
                obtain ⟨gx, hgtjx⟩ := Option.ne_none_iff_exists'.mp hgroups.1
                obtain ⟨gs, hgtjs⟩ := Option.ne_none_iff_exists'.mp hgroups.2
                have hgox : ((reindex out).getD x default).group = some gx := by
                  rw [hox]
                  show (out.getD x default).group = some gx
                  rw [← hjxeq, hgtrans ((out.getD x default).id), hgtjx]
                have hgos : ((reindex out).getD sid default).group = some gs := by
                  rw [hosid]
                  show (out.getD sid default).group = some gs
                  rw [← hjsideq, hgtrans ((out.getD sid default).id), hgtjs]
                simp only [hgox, hgos]
                have hgne : gx ≠ gs := by
                  intro heq
                  have hconf : ∃ q g,
                      (tj.getD (out.getD sid default).id default).geom = some q ∧
                      within q p radius = true ∧
                      (tj.getD (out.getD x default).id default).group = some g ∧
                      (tj.getD (out.getD sid default).id default).group = some g :=
                    ⟨qs, gx, hqs, hw, hgtjx, by rw [heq]; exact hgtjs⟩
                  have hexcl := hstays.2 (out.getD sid default).id hjsidn
                    (fun hcc => hjne hcc.symm) hconf
                  rw [hjsideq, hjsidI] at hexcl
                  exact Bool.noConfusion hexcl
                rw [if_neg (fun hcc => hgne hcc.1)]
            · rw [if_neg hw]
          simp only [thinTurn]
          rw [if_neg (by rw [hIx, hPx']; simp)]
          simp only [hogeox]
          simp only [scan_const radius p x (records_within (reindex out)) (reindex out) hstepid]
          have hgoal : (reindex out).set x
              { (reindex out).getD x default with INCLUDE := true, PROCESSED := false }
              = reindex out := by
            have h1 : ({ (reindex out).getD x default with
                INCLUDE := true, PROCESSED := false } : PointRecord)
                = (reindex out).getD x default :=
              reaffirm_eq_self _ hIx hPx'
            rw [h1]
            exact set_getD_eq_self (reindex out) x
          exact congrArg Except.ok hgoal
    · have hxe : (reindex out).length ≤ x := by
        rw [holen]
        omega
      have hdf : ((reindex out).getD x default).INCLUDE = false := by
        rw [List.getD_eq_default _ _ hxe]
        rfl
      exact thinTurn_skip radius (reindex out) x (Or.inl hdf)
  have hpasso : thin_pass radius (reindex out) = Except.ok (reindex out) :=
    thin_upto_const radius (reindex out) hturn_const (reindex out).length
  unfold thin_nodes
  simp only [hpasso]
  rw [List.filter_eq_self.mpr ?_]
  intro r hr
  obtain ⟨i, hi, hf⟩ := List.mem_map.mp hr
  have him : i < out.length := List.mem_range.mp hi
  rw [← hf]
  simpa using (horigin i him).2.2

theorem excludeRec_of_excluded (rec : PointRecord) (hI : rec.INCLUDE = false)
    (hP : rec.PROCESSED = true) : excludeRec rec = rec := by
  cases rec
  simp_all [excludeRec]

/-- Claim C4, counterexample.  Two coincident records, the second without the
group attribute: the probe of record 0 reaches the group comparison of
line 139 and the lookup of the absent key raises `KeyError`, so the whole
run fails — the record is not treated as "matching no other group". -/
theorem claim_C4_counterexample : thin_nodes 5 recsC4 = Except.error "KeyError" := by
  norm_num [thin_nodes, thin_pass, thin_upto, thinTurn, probeStep, records_within,
    within, excludeRec, recsC4, Bind.bind, Except.bind, Pure.pure, Except.pure, List.getD,
    show (List.range 2) = [0, 1] from rfl]

/-- Claim C4, amended.  When the group field is absent from the active or the
candidate record at the moment the candidate loop compares group values
(candidate inside the exact buffer, distinct ids, id match), the attribute
lookup raises `KeyError` and the run fails; a record lacking the field is
not silently treated as non-matching. -/
theorem claim_C4_amended (radius : ℚ) (p : ℚ × ℚ) (x : ℕ) (s : List PointRecord) (sid : ℕ)
    (q : ℚ × ℚ) (hq : (s.getD sid default).geom = some q)
    (hw : within q p radius = true)
    (hid1 : (s.getD x default).id ≠ (s.getD sid default).id)
    (hid2 : (s.getD sid default).id = sid)
    (hmiss : (s.getD x default).group = none ∨ (s.getD sid default).group = none) :
    probeStep radius p x s sid = Except.error "KeyError" := by
  simp only [probeStep, hq]
  rw [if_pos hw, if_pos ⟨hid1, hid2⟩]
  rcases hmiss with hm | hm
  · rw [hm]
  · rw [hm]
    cases hga : (s.getD x default).group <;> rfl

/-- Claim C5, counterexample.  A single record with a null geometry sets its
own `keep` flag to false during its turn (src/Nodify.py lines 128-131),
although no record with a different id exists: `keep = false` is not always
set by a different record. -/
theorem claim_C5_counterexample :
    thin_pass 5 recsC5 = Except.ok [⟨0, none, some "A", false, true, "p0"⟩] ∧
    recsC5.length = 1 ∧ (recsC5.getD 0 default).INCLUDE = true ∧
    (recsC5.getD 0 default).PROCESSED = false := by
  refine ⟨?_, rfl, rfl, rfl⟩
  norm_num [thin_pass, thin_upto, thinTurn, excludeRec, recsC5,
    Bind.bind, Except.bind, Pure.pure, Except.pure, List.getD,
    show (List.range 1) = [0] from rfl]

/-- Claim C5, amended.  On an input whose records all start with
`(keep, settled) = (true, false)`, each step of a thinning run either leaves
a record unchanged or moves it from `(true, false)` to `(false, true)`; the
flag is set to false either by a record at a different position or by the
record's own turn when its geometry is null; a record with `keep = false` is
frozen and skipped as an active record, and only records with `keep = true`
are written to the output. -/
theorem claim_C5_amended (radius : ℚ) (recs : List PointRecord) (k : ℕ)
    (s s' out : List PointRecord) (j : ℕ) (rec : PointRecord)
    (hfresh : allFresh recs = true)
    (hk : thin_upto radius recs k = Except.ok s)
    (hturn : thinTurn radius s k = Except.ok s')
    (hj : j < recs.length)
    (hout : thin_nodes radius recs = Except.ok out)
    (hmem : rec ∈ out) :
    (s'.getD j default = s.getD j default ∨
      ((s.getD j default).INCLUDE = true ∧ (s.getD j default).PROCESSED = false ∧
        s'.getD j default = excludeRec (s.getD j default) ∧
        (j ≠ k ∨ (s.getD j default).geom = none))) ∧
    ((s.getD j default).INCLUDE = false → s'.getD j default = s.getD j default) ∧
    ((s.getD k default).INCLUDE = false → s' = s) ∧
    rec.INCLUDE = true := by
  refine ⟨?_, ?_, ?_, ?_⟩
  · rcases thinTurn_shape radius s k s' hturn j with hsame | hexcl
    · exact Or.inl hsame
    · rcases thin_upto_shape radius recs hfresh k s hk j hj with ⟨hsI, hsP⟩ | ⟨hsI, hsP⟩
      · right
        refine ⟨hsI, hsP, hexcl, ?_⟩
        have hoffI : (s'.getD j default).INCLUDE = false := by
          rw [hexcl]
          exact excludeRec_INCLUDE _
        obtain ⟨-, -, -, hprov⟩ := thinTurn_provenance radius s k s' hturn j hsI hoffI
        rcases hprov with ⟨rfl, hg⟩ | ⟨hjk, -⟩
        · exact Or.inr hg
        · exact Or.inl hjk
      · left
        rw [hexcl, excludeRec_of_excluded _ hsI hsP]
  · intro hoff
    exact thinTurn_frozen radius s k s' hturn j hoff
  · intro hoff
    have hsk := thinTurn_skip radius s k (Or.inl hoff)
    rw [hsk] at hturn
    exact (Except.ok.inj hturn).symm
  · obtain ⟨final, -, hfil⟩ := thin_nodes_ok radius recs out hout
    rw [hfil] at hmem
    have hmf := List.mem_filter.mp hmem
    simpa using hmf.2

/-- Claim C6, counterexample.  There are no inputs at all on which a
later-indexed active record excludes an earlier-indexed record that had
already completed its own probe turn: because `records_within` returns every
record id and the containment test is symmetric, any later same-group record
inside the radius was itself excluded during the earlier record's probe turn
and can never pass the guard of line 124 to probe.  This refutes the second
half of the claim (retroactive exclusion; "not strictly first-index-wins"). -/
theorem claim_C6_counterexample :
    ¬ ∃ (radius : ℚ) (recs : List PointRecord) (j i : ℕ)
        (tj s s' : List PointRecord),
      wfIds recs = true ∧ j < i ∧ i < recs.length ∧
      thin_upto radius recs j = Except.ok tj ∧
      (tj.getD j default).INCLUDE = true ∧ (tj.getD j default).PROCESSED = false ∧
      (tj.getD j default).geom ≠ none ∧
      thin_upto radius recs i = Except.ok s ∧
      thinTurn radius s i = Except.ok s' ∧
      (s.getD j default).INCLUDE = true ∧ (s'.getD j default).INCLUDE = false := by
  rintro ⟨radius, recs, j, i, tj, s, s', hwf, hji, hin, htj, hI, hP, hgeo, hs, hturn, hsI, hs'I⟩
  obtain ⟨p, hp⟩ := Option.ne_none_iff_exists'.mp hgeo
  have hj : j < recs.length := Nat.lt_trans hji hin
  have hstays := probed_stays radius recs hwf j hj tj htj hI hP p hp i s hs hji
  obtain ⟨hiI, hiP, -, hprov⟩ := thinTurn_provenance radius s i s' hturn j hsI hs'I
  rcases hprov with ⟨rfl, -⟩ | ⟨hne, pi, hgeoi, hC⟩
  · exact Nat.lt_irrefl _ hji
  · obtain ⟨hwo, -, -, hgne, hgeq, -, -⟩ := hC
    have hcont : ∀ idx, contentOf (s.getD idx default) = contentOf (tj.getD idx default) :=
      fun idx => (thin_upto_content radius recs i s hs idx).trans
        (thin_upto_content radius recs j tj htj idx).symm
    obtain ⟨gi, hgi⟩ := Option.ne_none_iff_exists'.mp hgne
    have hconf : ∃ q g, (tj.getD i default).geom = some q ∧ within q p radius = true ∧
        (tj.getD j default).group = some g ∧ (tj.getD i default).group = some g := by
      refine ⟨pi, gi, ?_, ?_, ?_, ?_⟩
      · rw [← contentOf_geom _ _ (hcont i)]
        exact hgeoi
      · have hsj : s.getD j default = tj.getD j default := hstays.1
        rw [hsj, hp] at hwo
        have hwo' : within p pi radius = true := hwo
        rw [within_comm]
        exact hwo'
      · have hsj : s.getD j default = tj.getD j default := hstays.1
        rw [← hsj, ← hgeq]
        exact hgi
      · rw [← contentOf_group _ _ (hcont i)]
        exact hgi
    have hexcl := hstays.2 i hin (fun hcc => hne hcc.symm) hconf
    rw [hexcl] at hiI
    exact Bool.noConfusion hiI

/-- Claim C6, amended.  At the end of its own probe turn an active record is
indeed left with `keep = true`, `settled = false` (lines 143-144 reaffirm
it); however — contrary to the second half of the claim — it is then never
excluded by any later-indexed active record: a record that has completed its
probe turn is unchanged for the remainder of the pass and is kept in the
final state, so ownership of a duplicate cluster is strictly
first-probe-wins. -/
theorem claim_C6_amended (radius : ℚ) (recs : List PointRecord) (j : ℕ)
    (tj t' final : List PointRecord) (p : ℚ × ℚ)
    (hwf : wfIds recs = true) (hj : j < recs.length)
    (htj : thin_upto radius recs j = Except.ok tj)
    (hI : (tj.getD j default).INCLUDE = true)
    (hP : (tj.getD j default).PROCESSED = false)
    (hgeo : (tj.getD j default).geom = some p)
    (hturn : thinTurn radius tj j = Except.ok t')
    (hfinal : thin_pass radius recs = Except.ok final) :
    t'.getD j default = tj.getD j default ∧
    (t'.getD j default).INCLUDE = true ∧ (t'.getD j default).PROCESSED = false ∧
    final.getD j default = tj.getD j default ∧
    (final.getD j default).INCLUDE = true ∧ (final.getD j default).PROCESSED = false := by
  have ht' : thin_upto radius recs (j + 1) = Except.ok t' := by
    rw [thin_upto_succ, htj]
    exact hturn
  have h1 := probed_stays radius recs hwf j hj tj htj hI hP p hgeo (j + 1) t' ht'
    (Nat.lt_succ_self j)
  have h2 := probed_stays radius recs hwf j hj tj htj hI hP p hgeo recs.length final
    hfinal hj
  refine ⟨h1.1, ?_, ?_, h2.1, ?_, ?_⟩
  · rw [h1.1]
    exact hI
  · rw [h1.1]
    exact hP
  · rw [h2.1]
    exact hI
  · rw [h2.1]
    exact hP

/-- Claim C7: group isolation.  If a record's `keep` flag is turned off by
the probe turn of a record at a different position, then the two records'
group values are present and equal — contrapositive: two records with
different group values never exclude one another, whatever their distance. -/
theorem claim_C7_group_isolation (radius : ℚ) (recs : List PointRecord) (k : ℕ)
    (s s' : List PointRecord) (j : ℕ)
    (_hk : thin_upto radius recs k = Except.ok s)
    (hturn : thinTurn radius s k = Except.ok s')
    (hjk : j ≠ k)
    (honI : (s.getD j default).INCLUDE = true)
    (hoffI : (s'.getD j default).INCLUDE = false) :
    (s.getD k default).group ≠ none ∧
    (s.getD k default).group = (s.getD j default).group := by
  obtain ⟨-, -, -, hprov⟩ := thinTurn_provenance radius s k s' hturn j honI hoffI
  rcases hprov with ⟨hjx, -⟩ | ⟨-, p, -, hC⟩
  · exact absurd hjx hjk
  · obtain ⟨-, -, -, hgne, hgeq, -, -⟩ := hC
    exact ⟨hgne, hgeq⟩

/-- Claim C9: the output of `thin_nodes` is exactly the subsequence of the
final pass state whose `keep` flag is true, written in store order; the pass
preserves the length of the collection and the non-flag content (id,
geometry, group value, remaining attributes) of every record, so the written
records are the input records with `keep = true`, neither reordered,
duplicated nor dropped, with unchanged non-flag content. -/
theorem claim_C9_output (radius : ℚ) (recs final : List PointRecord) (j : ℕ)
    (hpass : thin_pass radius recs = Except.ok final) (_hj : j < recs.length) :
    thin_nodes radius recs = Except.ok (final.filter (fun rec => rec.INCLUDE)) ∧
    final.length = recs.length ∧
    contentOf (final.getD j default) = contentOf (recs.getD j default) ∧
    List.Sublist ((final.filter (fun rec => rec.INCLUDE)).map contentOf)
      (recs.map contentOf) := by
  have hlen : final.length = recs.length :=
    thin_upto_length radius recs recs.length final hpass
  refine ⟨?_, hlen, thin_upto_content radius recs recs.length final hpass j, ?_⟩
  · unfold thin_nodes
    simp only [hpass]
  · have h1 : List.Sublist ((final.filter (fun rec => rec.INCLUDE)).map contentOf)
        (final.map contentOf) :=
      List.Sublist.map contentOf (List.filter_sublist final)
    have h3 : final.map contentOf = recs.map contentOf := by
      apply List.ext_getElem (by simp [hlen])
      intro n h1' h2'
      simp only [List.getElem_map]
      have hcc := thin_upto_content radius recs recs.length final hpass n
      rw [List.getD_eq_getElem _ _ (by simpa using h1'),
        List.getD_eq_getElem _ _ (by simpa using h2')] at hcc
      exact hcc
    rw [← h3]
    exact h1

/-- Claim C10, counterexample.  A single record with a null geometry has its
`keep` flag set to false during the run although no distinct record exists at
all, let alone a same-group probe within the radius. -/
theorem claim_C10_counterexample :
    thin_pass 7 recsC10 = Except.ok [⟨0, none, some "B", false, true, "q0"⟩] ∧
    recsC10.length = 1 ∧ (recsC10.getD 0 default).INCLUDE = true := by
  refine ⟨?_, rfl, rfl⟩
  norm_num [thin_pass, thin_upto, thinTurn, excludeRec, recsC10,
    Bind.bind, Except.bind, Pure.pure, Except.pure, List.getD,
    show (List.range 1) = [0] from rfl]

/-- Claim C10, amended.  Whenever a record's `keep` flag turns from true to
false during a turn of the run, either the record is the active record itself
and its geometry is null, or there is a distinct active probe at the turn's
position whose id differs, whose group value is present and equal to the
record's, and whose point lies within squared distance `radius * radius`
of the record's point (the exact buffer test of line 138, modelled by the
closed disk) — never the coarse search margin alone. -/
theorem claim_C10_amended (radius : ℚ) (recs : List PointRecord) (k : ℕ)
    (s s' : List PointRecord) (j : ℕ)
    (_hk : thin_upto radius recs k = Except.ok s)
    (hturn : thinTurn radius s k = Except.ok s')
    (honI : (s.getD j default).INCLUDE = true)
    (hoffI : (s'.getD j default).INCLUDE = false) :
    (j = k ∧ (s.getD j default).geom = none) ∨
    (j ≠ k ∧ (s.getD k default).id ≠ (s.getD j default).id ∧
      withinOpt ((s.getD j default).geom) ((s.getD k default).geom) radius = true ∧
      (s.getD k default).group ≠ none ∧
      (s.getD k default).group = (s.getD j default).group) := by
  obtain ⟨-, -, -, hprov⟩ := thinTurn_provenance radius s k s' hturn j honI hoffI
  rcases hprov with ⟨rfl, hg⟩ | ⟨hjk, p, hgeo, hC⟩
  · exact Or.inl ⟨rfl, hg⟩
  · obtain ⟨hwo, hne, -, hgne, hgeq, -, -⟩ := hC
    refine Or.inr ⟨hjk, hne, ?_, hgne, hgeq⟩
    rw [hgeo]
    exact hwo

/-- Witness for claim C4: on `recsC4` (two coincident records, the second
without a group value) the probe of record 0 against candidate 1 raises
`KeyError`. -/
theorem claim_C4_witness :
    within (0, 0) (0, 0) 5 = true ∧
    probeStep 5 (0, 0) 0 recsC4 1 = Except.error "KeyError" :=
  ⟨by norm_num [within],
   claim_C4_amended 5 (0, 0) 0 recsC4 1 (0, 0) rfl (by norm_num [within])
     (by decide) rfl (Or.inr rfl)⟩

/-- Witness for claim C5: the turn of record 0 of `recsC8` excludes record 1,
every output record of `thin_nodes` has `keep = true`. -/
theorem claim_C5_witness :
    allFresh recsC8 = true ∧
    thin_upto 2 recsC8 0 = Except.ok recsC8 ∧
    thinTurn 2 recsC8 0 = Except.ok recsC8after ∧
    thin_nodes 2 recsC8 = Except.ok outC8 ∧
    (⟨0, some (0, 0), some "A", true, false, "p0"⟩ : PointRecord).INCLUDE = true := by
  have e1 : thinTurn 2 recsC8 0 = Except.ok recsC8after := by
    norm_num [thinTurn, probeStep, records_within, within, excludeRec, recsC8, recsC8after,
      Bind.bind, Except.bind, Pure.pure, Except.pure, List.getD]
  have e2 : thin_nodes 2 recsC8 = Except.ok outC8 := by
    norm_num [thin_nodes, thin_pass, thin_upto, thinTurn, probeStep, records_within,
      within, excludeRec, recsC8, outC8, Bind.bind, Except.bind, Pure.pure, Except.pure,
      List.getD, show (List.range 2) = [0, 1] from rfl]
  refine ⟨by decide, rfl, e1, e2, ?_⟩
  exact (claim_C5_amended 2 recsC8 0 recsC8 recsC8after outC8 1
    ⟨0, some (0, 0), some "A", true, false, "p0"⟩ (by decide) rfl e1 (by decide) e2
    (by simp [outC8])).2.2.2

/-- Witness for claim C6: record 0 of `recsC8` is reaffirmed by its own turn
and kept unchanged in the final state of the pass. -/
theorem claim_C6_witness :
    wfIds recsC8 = true ∧
    thin_pass 2 recsC8 = Except.ok recsC8after ∧
    recsC8after.getD 0 default = recsC8.getD 0 default ∧
    (recsC8after.getD 0 default).INCLUDE = true := by
  have e1 : thinTurn 2 recsC8 0 = Except.ok recsC8after := by
    norm_num [thinTurn, probeStep, records_within, within, excludeRec, recsC8, recsC8after,
      Bind.bind, Except.bind, Pure.pure, Except.pure, List.getD]
  have e2 : thin_pass 2 recsC8 = Except.ok recsC8after := by
    norm_num [thin_pass, thin_upto, thinTurn, probeStep, records_within, within,
      excludeRec, recsC8, recsC8after, Bind.bind, Except.bind, Pure.pure, Except.pure,
      List.getD, show (List.range 2) = [0, 1] from rfl]
  have h := claim_C6_amended 2 recsC8 0 recsC8 recsC8after recsC8after (0, 0)
    (by decide) (by decide) rfl rfl rfl rfl e1 e2
  exact ⟨by decide, e2, h.1, h.2.1⟩

/-- Witness for claim C7: record 1 of `recsC8` loses its `keep` flag during
the turn of record 0, and the two records share the group value `"A"`. -/
theorem claim_C7_witness :
    thinTurn 2 recsC8 0 = Except.ok recsC8after ∧
    (recsC8after.getD 1 default).INCLUDE = false ∧
    (recsC8.getD 0 default).group = (recsC8.getD 1 default).group := by
  have e1 : thinTurn 2 recsC8 0 = Except.ok recsC8after := by
    norm_num [thinTurn, probeStep, records_within, within, excludeRec, recsC8, recsC8after,
      Bind.bind, Except.bind, Pure.pure, Except.pure, List.getD]
  exact ⟨e1, rfl,
    (claim_C7_group_isolation 2 recsC8 0 recsC8 recsC8after 1 rfl e1 (by decide) rfl rfl).2⟩

/-- Witness for claim C8: thinning `recsC8` with radius 2 yields `outC8`, and
re-running the pass on the re-indexed output returns it unchanged. -/
theorem claim_C8_witness :
    wfIds recsC8 = true ∧
    thin_nodes 2 recsC8 = Except.ok outC8 ∧
    thin_nodes 2 (reindex outC8) = Except.ok (reindex outC8) := by
  have e2 : thin_nodes 2 recsC8 = Except.ok outC8 := by
    norm_num [thin_nodes, thin_pass, thin_upto, thinTurn, probeStep, records_within,
      within, excludeRec, recsC8, outC8, Bind.bind, Except.bind, Pure.pure, Except.pure,
      List.getD, show (List.range 2) = [0, 1] from rfl]
  exact ⟨by decide, e2, claim_C8_idempotent 2 recsC8 outC8 (by decide) e2⟩

/-- Witness for claim C9: the pass over `recsC8` preserves the length and the
non-flag content of record 0. -/
theorem claim_C9_witness :
    thin_pass 2 recsC8 = Except.ok recsC8after ∧
    recsC8after.length = recsC8.length ∧
    contentOf (recsC8after.getD 0 default) = contentOf (recsC8.getD 0 default) := by
  have e2 : thin_pass 2 recsC8 = Except.ok recsC8after := by
    norm_num [thin_pass, thin_upto, thinTurn, probeStep, records_within, within,
      excludeRec, recsC8, recsC8after, Bind.bind, Except.bind, Pure.pure, Except.pure,
      List.getD, show (List.range 2) = [0, 1] from rfl]
  have h := claim_C9_output 2 recsC8 recsC8after 0 e2 (by decide)
  exact ⟨e2, h.2.1, h.2.2.1⟩

/-- Witness for claim C10: record 1 of `recsC8` is excluded during the turn of
record 0, and the exclusion condition (distinct ids, exact-buffer containment,
matching present group values) holds. -/
theorem claim_C10_witness :
    thinTurn 2 recsC8 0 = Except.ok recsC8after ∧
    (((1 : ℕ) = 0 ∧ (recsC8.getD 1 default).geom = none) ∨
      ((1 : ℕ) ≠ 0 ∧ (recsC8.getD 0 default).id ≠ (recsC8.getD 1 default).id ∧
        withinOpt ((recsC8.getD 1 default).geom) ((recsC8.getD 0 default).geom) 2 = true ∧
        (recsC8.getD 0 default).group ≠ none ∧
        (recsC8.getD 0 default).group = (recsC8.getD 1 default).group)) := by
  have e1 : thinTurn 2 recsC8 0 = Except.ok recsC8after := by
    norm_num [thinTurn, probeStep, records_within, within, excludeRec, recsC8, recsC8after,
      Bind.bind, Except.bind, Pure.pure, Except.pure, List.getD]
  exact ⟨e1, claim_C10_amended 2 recsC8 0 recsC8 recsC8after 1 rfl e1 rfl rfl⟩
